import Mathlib

/-!
Verification of the offline inspection queue and service-worker cache layer
of the multi-agent-app PWA.

The development shallowly embeds:
- src/services/offlineService.ts : the idb-keyval backed durable record store
  (saveInspection, getAllInspections, removeInspection), the per-record sync
  (syncInspection), the batch sync executor (syncAllInspections) and the
  connectivity oracle (isOnline);
- the service worker (public/sw.js): CACHE_NAME, STATIC_CACHE_URLS,
  NEVER_CACHE_PATTERNS, the activate handler, the fetch handler, and the
  background sync executor handleInspectionSync.

Modelling conventions:
- idb-keyval over IndexedDB is modelled as an association list from string
  keys to records; keys() returns keys in ascending lexicographic order,
  matching IndexedDB key ordering for string keys (ASCII code points).
- Each network fetch is modelled by an oracle value describing how the
  request settles: rejection (network error) or a response carrying an HTTP
  status, status text, and the outcome of parsing the body as JSON.
- Asynchronous sequential await-style code becomes explicit state passing;
  each executor additionally records the list of records it POSTed, in
  order, as an observable trace.
-/

/-- Lang enumeration from OfflineInspection.language (fi | et | en). -/
inductive Lang where
  | fi
  | et
  | en
deriving DecidableEq, Repr

/-- OfflineInspection record (offlineService.ts lines 3-10). The image blob
is modelled as an opaque byte list; timestamp is epoch milliseconds. -/
structure OfflineInspection where
  id : String
  blob : List Nat
  fileName : String
  timestamp : Int
  wantAudio : Bool
  language : Lang
deriving DecidableEq, Repr

/-- Lexicographic comparison of char lists by code point, the IndexedDB key
order for the ASCII keys used by this app. -/
def charListLe : List Char → List Char → Bool
  | [], _ => true
  | _ :: _, [] => false
  | a :: as, b :: bs =>
    if a.toNat < b.toNat then true
    else if b.toNat < a.toNat then false
    else charListLe as bs

/-- String order used for IndexedDB key enumeration. -/
def strLe (a b : String) : Bool := charListLe a.data b.data

/-- keyLe a b : the key a sorts no later than b in IndexedDB key order. -/
def keyLe (a b : String) : Prop := strLe a b = true

instance : DecidableRel keyLe :=
  fun a b => inferInstanceAs (Decidable (strLe a b = true))

/-- startsWith from the source, over the character data of the strings. -/
def strStarts (s pat : String) : Bool := pat.data.isPrefixOf s.data

/-- endsWith test used by the regex patterns anchored at end of path. -/
def strEnds (s pat : String) : Bool := pat.data.isSuffixOf s.data

/-- Does the pattern occur as a contiguous segment of the list? -/
def segIn : List Char → List Char → Bool
  | pat, [] => pat.isPrefixOf ([] : List Char)
  | pat, c :: cs => pat.isPrefixOf (c :: cs) || segIn pat cs

/-- Unanchored substring test used by the assets path regex. -/
def strContains (s pat : String) : Bool := segIn pat.data s.data

/-- The idb-keyval store: an association list from string keys to
OfflineInspection values (keys are unique in any store reachable by the
store operations). -/
abbrev Store := List (String × OfflineInspection)

/-- idb-keyval get: the value stored under k, if any. -/
def idbGet (s : Store) (k : String) : Option OfflineInspection :=
  (s.find? (fun p => p.1 = k)).map Prod.snd

/-- idb-keyval set: upsert, overwriting any existing value under k. -/
def idbSet (s : Store) (k : String) (v : OfflineInspection) : Store :=
  if s.any (fun p => p.1 = k) then
    s.map (fun p => if p.1 = k then (k, v) else p)
  else s ++ [(k, v)]

/-- idb-keyval del: remove the entry under k if present. -/
def idbDel (s : Store) (k : String) : Store :=
  s.filter (fun p => p.1 ≠ k)

/-- idb-keyval keys(): all keys, in ascending IndexedDB key order. -/
def idbKeys (s : Store) : List String :=
  List.insertionSort keyLe (s.map Prod.fst)

/-- The key namespace constant of offlineService.ts (source constant name:
OFFLINE_KEY_PREFIX, value "offline-inspection-"). -/
def offlineKeyHead : String := "offline-inspection-"

/-- The store key used for an inspection id. -/
def keyFor (id : String) : String := offlineKeyHead ++ id

/-- offlineService.saveInspection: set(OFFLINE_KEY_PREFIX + id, inspection). -/
def saveInspection (s : Store) (inspection : OfflineInspection) : Store :=
  idbSet s (keyFor inspection.id) inspection

/-- Ordering of inspections by timestamp, as in the comparator
(a, b) => a.timestamp - b.timestamp of getAllInspections (a stable
ascending sort in JS, modelled by a stable insertion sort). -/
def tsLe (a b : OfflineInspection) : Prop := a.timestamp ≤ b.timestamp

instance : DecidableRel tsLe :=
  fun a b => inferInstanceAs (Decidable (a.timestamp ≤ b.timestamp))

instance : IsTotal OfflineInspection tsLe :=
  ⟨fun a b => Int.le_total a.timestamp b.timestamp⟩

instance : IsTrans OfflineInspection tsLe :=
  ⟨fun _ _ _ h1 h2 => Int.le_trans h1 h2⟩

/-- offlineService.getAllInspections: enumerate keys, keep those in the
offline namespace (all model keys are strings, so the typeof filter of the
source is identity here), fetch each, skip missing values, and sort by
timestamp ascending. -/
def getAllInspections (s : Store) : List OfflineInspection :=
  let allKeys := idbKeys s
  let offlineKeys := allKeys.filter (fun k => strStarts k offlineKeyHead)
  let inspections := offlineKeys.filterMap (fun k => idbGet s k)
  List.insertionSort tsLe inspections

/-- offlineService.removeInspection: del(OFFLINE_KEY_PREFIX + id). -/
def removeInspection (s : Store) (id : String) : Store :=
  idbDel s (keyFor id)

/-- Parsed JSON body fields the sync code reads from the webhook response;
absent fields are none, present-but-empty strings are some "". -/
structure RespBody where
  textResponse : Option String
  text : Option String
  audioResponse : Option String
  audio : Option String
deriving DecidableEq, Repr

/-- Outcome of response.json(): either a parse rejection with an error
message, or the parsed body. -/
inductive JsonParse where
  | failed (msg : String)
  | parsed (body : RespBody)
deriving DecidableEq, Repr

/-- How one fetch settles: rejection (network error carrying the error
message) or a response with status, statusText and a JSON parse outcome. -/
inductive FetchOutcome where
  | netError (msg : String)
  | resp (status : Nat) (statusText : String) (body : JsonParse)
deriving DecidableEq, Repr

/-- Response.ok of the fetch API: status in the range 200-299. -/
def respOk (status : Nat) : Bool := 200 ≤ status && status ≤ 299

/-- JS truthiness fallback a || d restricted to optional string fields:
absent or empty string falls through to the default. -/
def jsOrStr : Option String → String → String
  | some s, d => if s = "" then d else s
  | none, d => d

/-- SyncResult returned by offlineService.syncInspection. -/
structure SyncResult where
  success : Bool
  textResponse : Option String
  audioResponse : Option String
  error : Option String
deriving DecidableEq, Repr

/-- offlineService.syncInspection, as a function of how the POST settles:
non-2xx throws HTTP status/statusText, a JSON parse rejection propagates,
and every thrown error is caught and returned as success false with the
error message; on full success the text/audio fields are extracted with
the || fallback chain. -/
def syncInspection (net : FetchOutcome) : SyncResult :=
  match net with
  | .netError msg => ⟨false, none, none, some msg⟩
  | .resp status statusText body =>
    if !respOk status then
      ⟨false, none, none, some ("HTTP " ++ toString status ++ ": " ++ statusText)⟩
    else
      match body with
      | .failed msg => ⟨false, none, none, some msg⟩
      | .parsed j =>
        ⟨true, some (jsOrStr j.textResponse (jsOrStr j.text "")),
          some (jsOrStr j.audioResponse (jsOrStr j.audio "")), none⟩

/-- One entry of the results array built by syncAllInspections. -/
structure SyncOutcome where
  id : String
  success : Bool
  error : Option String
deriving DecidableEq, Repr

/-- State produced by a sync cycle: the final store, the synced and failed
counters, the results array, and the trace of records POSTed in order. -/
structure SyncCycleState where
  store : Store
  synced : Nat
  failed : Nat
  results : List SyncOutcome
  posted : List OfflineInspection
deriving DecidableEq, Repr

/-- The for-loop body of syncAllInspections over the listed snapshot:
on success remove the record and count it synced, on failure count it
failed and record the error; always continue with the rest. -/
def syncAllLoop (net : OfflineInspection → FetchOutcome) :
    List OfflineInspection → Store → SyncCycleState
  | [], s => ⟨s, 0, 0, [], []⟩
  | inspection :: rest, s =>
    let r := syncInspection (net inspection)
    if r.success then
      let st := syncAllLoop net rest (removeInspection s inspection.id)
      ⟨st.store, st.synced + 1, st.failed,
        ⟨inspection.id, true, none⟩ :: st.results, inspection :: st.posted⟩
    else
      let st := syncAllLoop net rest s
      ⟨st.store, st.synced, st.failed + 1,
        ⟨inspection.id, false, r.error⟩ :: st.results, inspection :: st.posted⟩

/-- offlineService.syncAllInspections: list all pending records, then run
the sequential per-record loop over that snapshot. -/
def syncAllInspections (net : OfflineInspection → FetchOutcome) (s : Store) :
    SyncCycleState :=
  syncAllLoop net (getAllInspections s) s

/-- offlineService.isOnline: false immediately when the platform flag is
down (no probe issued); otherwise a HEAD probe to /favicon.ico, returning
response.ok, and false when the probe rejects. -/
def isOnline (navigatorOnLine : Bool) (probe : FetchOutcome) : Bool :=
  if !navigatorOnLine then
    false
  else
    match probe with
    | .netError _ => false
    | .resp status _ _ => respOk status

/-- The outcome the results array records for one listed inspection. -/
def outcomeOf (net : OfflineInspection → FetchOutcome)
    (r : OfflineInspection) : SyncOutcome :=
  if (syncInspection (net r)).success then ⟨r.id, true, none⟩
  else ⟨r.id, false, (syncInspection (net r)).error⟩

/-- Store well-formedness: keys are unique and every entry is stored under
the key derived from the id of its value. Every store reachable through
saveInspection and removeInspection satisfies this. -/
def StoreWF (s : Store) : Prop :=
  (s.map Prod.fst).Nodup ∧ ∀ p ∈ s, p.1 = keyFor p.2.id

instance (s : Store) : Decidable (StoreWF s) :=
  inferInstanceAs
    (Decidable ((s.map Prod.fst).Nodup ∧ ∀ p ∈ s, p.1 = keyFor p.2.id))

/-! ## Service worker: cache manager -/

/-- A stored or network response: HTTP status, response.type (basic for
same-origin), and an opaque body. -/
structure SWResponse where
  status : Nat
  resType : String
  body : String
deriving DecidableEq, Repr

/-- One cache generation: request URL path to stored response. -/
abbrev SWCache := List (String × SWResponse)

/-- The CacheStorage: named cache generations in creation order. -/
abbrev SWCacheStorage := List (String × SWCache)

/-- CACHE_NAME of the service worker. -/
def CACHE_NAME : String := "tyokalu-app-v5"

/-- STATIC_CACHE_URLS of the service worker. -/
def STATIC_CACHE_URLS : List String :=
  ["/", "/index.html", "/manifest.json", "/female-greeting.mp3",
   "/icons/favicon.ico", "/icons/maskable-192.png", "/icons/maskable-512.png"]

/-- NEVER_CACHE_PATTERNS applied to url.pathname: ends in .js, ends in
.css, or contains an assets/ segment. -/
def neverCacheTest (pathname : String) : Bool :=
  strEnds pathname ".js" || strEnds pathname ".css" ||
    strContains pathname "assets/"

/-- cache.match within one cache generation, keyed by URL path. -/
def cacheMatchIn (c : SWCache) (url : String) : Option SWResponse :=
  (c.find? (fun e => e.1 = url)).map Prod.snd

/-- caches.match: first hit across cache generations in order. Same-origin
requests are keyed by their URL path. -/
def cachesMatch : SWCacheStorage → String → Option SWResponse
  | [], _ => none
  | (_, c) :: rest, url =>
    match cacheMatchIn c url with
    | some r => some r
    | none => cachesMatch rest url

/-- cache.put into one generation: upsert keyed by URL path. -/
def cacheEntryPut (c : SWCache) (url : String) (r : SWResponse) : SWCache :=
  if c.any (fun e => e.1 = url) then
    c.map (fun e => if e.1 = url then (url, r) else e)
  else c ++ [(url, r)]

/-- caches.open(nm) followed by cache.put: creates the generation when
missing. -/
def cachePut (cs : SWCacheStorage) (nm url : String) (r : SWResponse) :
    SWCacheStorage :=
  if cs.any (fun p => p.1 = nm) then
    cs.map (fun p => if p.1 = nm then (nm, cacheEntryPut p.2 url r) else p)
  else cs ++ [(nm, [(url, r)])]

/-- The activate handler: caches.keys() then caches.delete(name) for every
name different from CACHE_NAME, so exactly the generations named
CACHE_NAME remain. -/
def activateHandler (cs : SWCacheStorage) : SWCacheStorage :=
  cs.filter (fun p => p.1 = CACHE_NAME)

/-- A fetch-event request: method, full URL, its pathname, and mode. -/
structure SWRequest where
  method : String
  url : String
  pathname : String
  mode : String
deriving DecidableEq, Repr

/-- How the network settles for a service-worker fetch: a response or a
rejection. -/
inductive SWNetResult where
  | success (r : SWResponse)
  | failure
deriving DecidableEq, Repr

/-- What the fetch handler does: pass the request through untouched (no
respondWith), or respond with a value (none models resolving with
undefined after total failure on a non-navigation request). -/
inductive FetchHandlerResult where
  | passThrough
  | respond (r : Option SWResponse)
deriving DecidableEq, Repr

/-- The fetch handler of the service worker: skip non-GET and cross-origin
requests; never-cache paths are network-first with cache fallback only on
network rejection; all other paths are cache-first, with an opportunistic
cache.put of a fetched response only when it has status 200, type basic,
and its path is in STATIC_CACHE_URLS, and a root-document fallback for
failed navigation requests. Returns the updated CacheStorage and the
handler decision. -/
def handleFetch (selfOrigin : String) (cs : SWCacheStorage) (req : SWRequest)
    (net : SWNetResult) : SWCacheStorage × FetchHandlerResult :=
  if req.method ≠ "GET" then (cs, .passThrough)
  else if ¬ (strStarts req.url selfOrigin = true) then (cs, .passThrough)
  else if neverCacheTest req.pathname then
    match net with
    | .success r => (cs, .respond (some r))
    | .failure => (cs, .respond (cachesMatch cs req.pathname))
  else
    match cachesMatch cs req.pathname with
    | some r => (cs, .respond (some r))
    | none =>
      match net with
      | .success r =>
        if r.status ≠ 200 ∨ r.resType ≠ "basic" then (cs, .respond (some r))
        else if STATIC_CACHE_URLS.contains req.pathname then
          (cachePut cs CACHE_NAME req.pathname r, .respond (some r))
        else (cs, .respond (some r))
      | .failure =>
        if req.mode = "navigate" then (cs, .respond (cachesMatch cs "/"))
        else (cs, .respond none)

/-! ## Service worker: background sync executor -/

/-- State of one background sync pass: final store, counters, and the
trace of records POSTed in order. -/
structure BgSyncState where
  store : Store
  synced : Nat
  failed : Nat
  posted : List OfflineInspection
deriving DecidableEq, Repr

/-- The loop of handleInspectionSync over the filtered key list: get each
key, skip missing values, POST, delete on response.ok, count a failure on
non-ok status or fetch rejection, and continue. -/
def bgSyncLoop (net : OfflineInspection → FetchOutcome) :
    List String → Store → BgSyncState
  | [], s => ⟨s, 0, 0, []⟩
  | k :: rest, s =>
    match idbGet s k with
    | none => bgSyncLoop net rest s
    | some inspection =>
      match net inspection with
      | .netError _ =>
        let st := bgSyncLoop net rest s
        ⟨st.store, st.synced, st.failed + 1, inspection :: st.posted⟩
      | .resp status _ _ =>
        if respOk status then
          let st := bgSyncLoop net rest (idbDel s k)
          ⟨st.store, st.synced + 1, st.failed, inspection :: st.posted⟩
        else
          let st := bgSyncLoop net rest s
          ⟨st.store, st.synced, st.failed + 1, inspection :: st.posted⟩

/-- handleInspectionSync of the service worker (the background-task
executor): enumerate keys in IndexedDB key order, keep the offline
namespace, return immediately when empty, else run the loop over the keys
in that enumeration order (no sort by timestamp). -/
def handleInspectionSync (net : OfflineInspection → FetchOutcome)
    (s : Store) : BgSyncState :=
  let allKeys := idbKeys s
  let offlineKeys := allKeys.filter (fun k => strStarts k "offline-inspection-")
  if offlineKeys.isEmpty then ⟨s, 0, 0, []⟩
  else bgSyncLoop net offlineKeys s

/-! ## Concrete test inputs for witnesses and counterexamples -/

/-- A record with id a created after the record with id b. -/
def recLateA : OfflineInspection := ⟨"a", [], "a.jpg", 2000, false, .fi⟩

/-- A record with id b created before the record with id a. -/
def recEarlyB : OfflineInspection := ⟨"b", [], "b.jpg", 1000, true, .fi⟩

/-- Store holding recEarlyB and recLateA. -/
def cexStore : Store := saveInspection (saveInspection [] recEarlyB) recLateA

/-- Network oracle that accepts every POST with a 200 JSON response. -/
def okNet : OfflineInspection → FetchOutcome :=
  fun _ => .resp 200 "OK" (.parsed ⟨some "ok", none, some "", none⟩)

/-- Record A of the partial-failure scenario (earlier, rejected). -/
def recScA : OfflineInspection := ⟨"a", [0], "a.jpg", 1000, false, .fi⟩

/-- Record B of the partial-failure scenario (later, accepted). -/
def recScB : OfflineInspection := ⟨"b", [1], "b.jpg", 2000, true, .et⟩

/-- Store holding the partial-failure scenario records. -/
def storeAB : Store := saveInspection (saveInspection [] recScA) recScB

/-- Network oracle rejecting record a with HTTP 500 and accepting every
other record with 200. -/
def netAB : OfflineInspection → FetchOutcome :=
  fun r =>
    if r.id = "a" then .resp 500 "Internal Server Error" (.failed "bad json")
    else .resp 200 "OK" (.parsed ⟨some "done", none, none, none⟩)

/-- Duplicate-id record differing from recScA in every payload field. -/
def recScA2 : OfflineInspection := ⟨"a", [7], "other.jpg", 9000, true, .en⟩

/-- Store holding only recScA. -/
def storeA : Store := saveInspection [] recScA

/-- A stale cached copy of a build-hashed script. -/
def staleJs : SWResponse := ⟨200, "basic", "old-bundle"⟩

/-- The fresh network copy of the same script. -/
def freshJs : SWResponse := ⟨200, "basic", "new-bundle"⟩

/-- CacheStorage holding an old generation and the active generation with
a stale entry for the hashed script path. -/
def cexCaches : SWCacheStorage :=
  [("tyokalu-app-v4", [("/", ⟨200, "basic", "old-shell"⟩)]),
   (CACHE_NAME, [("/assets/app.3f2a.js", staleJs)])]

/-- The request for the hashed script. -/
def jsReq : SWRequest :=
  ⟨"GET", "https://app.example/assets/app.3f2a.js", "/assets/app.3f2a.js",
    "no-cors"⟩

/-- The origin of the application. -/
def appOrigin : String := "https://app.example"

/-- A cacheable shell request (in the static manifest, not never-cache). -/
def htmlReq : SWRequest :=
  ⟨"GET", "https://app.example/index.html", "/index.html", "navigate"⟩

/-- A successful basic response for the shell request. -/
def htmlResp : SWResponse := ⟨200, "basic", "shell"⟩

/-- The active generation with no entries yet. -/
def emptyCaches : SWCacheStorage := [(CACHE_NAME, [])]

/-! ## Helper lemmas -/

/-- Prepending the fixed key namespace is injective. -/
theorem keyFor_inj {a b : String} (h : keyFor a = keyFor b) : a = b := by
  have hd := congrArg String.data h
  simp only [keyFor, String.data_append] at hd
  exact String.ext (List.append_cancel_left hd)

/-- Deleting a key makes it unreadable. -/
theorem idbGet_del_self (s : Store) (k : String) :
    idbGet (idbDel s k) k = none := by
  have h : (idbDel s k).find? (fun p => p.1 = k) = none := by
    rw [List.find?_eq_none]
    intro p hp
    have h2 := List.mem_filter.mp hp
    simpa using h2.2
  simp [idbGet, h]

/-- Deleting one key leaves every other key unchanged. -/
theorem idbGet_del_ne (s : Store) {k kd : String} (h : k ≠ kd) :
    idbGet (idbDel s kd) k = idbGet s k := by
  induction s with
  | nil => rfl
  | cons p t ih =>
    unfold idbGet idbDel at ih ⊢
    rw [List.filter_cons]
    by_cases hpd : p.1 = kd
    · have hpk : ¬ p.1 = k := fun hh => h (hh.symm.trans hpd)
      rw [if_neg (by simp [hpd])]
      rw [List.find?_cons_of_neg _ (by simp [hpk])]
      exact ih
    · rw [if_pos (by simp [hpd])]
      by_cases hpk : p.1 = k
      · rw [List.find?_cons_of_pos _ (by simp [hpk]),
          List.find?_cons_of_pos _ (by simp [hpk])]
      · rw [List.find?_cons_of_neg _ (by simp [hpk]),
          List.find?_cons_of_neg _ (by simp [hpk])]
        exact ih

/-- A successful read exhibits the entry in the store. -/
theorem idbGet_some_mem {s : Store} {k : String} {r : OfflineInspection}
    (h : idbGet s k = some r) : (k, r) ∈ s := by
  unfold idbGet at h
  cases hf : s.find? (fun p => p.1 = k) with
  | none => rw [hf] at h; simp at h
  | some p =>
    rw [hf] at h
    simp at h
    have hmem := List.mem_of_find?_eq_some hf
    have hpred := List.find?_some hf
    have hk : p.1 = k := by simpa using hpred
    have hp : p = (k, r) := by
      cases p
      simp only at hk h
      simp [hk, h]
    rwa [hp] at hmem

/-- The loop POSTs exactly its input list, in order. -/
theorem syncAllLoop_posted (net : OfflineInspection → FetchOutcome)
    (l : List OfflineInspection) (s : Store) :
    (syncAllLoop net l s).posted = l := by
  induction l generalizing s with
  | nil => rfl
  | cons a t ih =>
    cases hs : (syncInspection (net a)).success <;>
      simp [syncAllLoop, hs, ih]

/-- The loop results array is one outcome per input record, in order. -/
theorem syncAllLoop_results (net : OfflineInspection → FetchOutcome)
    (l : List OfflineInspection) (s : Store) :
    (syncAllLoop net l s).results = l.map (outcomeOf net) := by
  induction l generalizing s with
  | nil => rfl
  | cons a t ih =>
    cases hs : (syncInspection (net a)).success <;>
      simp [syncAllLoop, hs, ih, outcomeOf]

/-- The synced counter counts the successful attempts of the input list. -/
theorem syncAllLoop_synced (net : OfflineInspection → FetchOutcome)
    (l : List OfflineInspection) (s : Store) :
    (syncAllLoop net l s).synced
      = l.countP (fun r => (syncInspection (net r)).success) := by
  induction l generalizing s with
  | nil => rfl
  | cons a t ih =>
    cases hs : (syncInspection (net a)).success <;>
      simp [syncAllLoop, hs, ih, List.countP_cons]

/-- The failed counter counts the failed attempts of the input list. -/
theorem syncAllLoop_failed (net : OfflineInspection → FetchOutcome)
    (l : List OfflineInspection) (s : Store) :
    (syncAllLoop net l s).failed
      = l.countP (fun r => !(syncInspection (net r)).success) := by
  induction l generalizing s with
  | nil => rfl
  | cons a t ih =>
    cases hs : (syncInspection (net a)).success <;>
      simp [syncAllLoop, hs, ih, List.countP_cons]

/-- The loop never touches keys outside the ids of its input list. -/
theorem syncAllLoop_get_stable (net : OfflineInspection → FetchOutcome)
    (l : List OfflineInspection) (s : Store) (k : String)
    (h : ∀ r ∈ l, k ≠ keyFor r.id) :
    idbGet (syncAllLoop net l s).store k = idbGet s k := by
  induction l generalizing s with
  | nil => rfl
  | cons a t ih =>
    have ha : k ≠ keyFor a.id := h a (by simp)
    have ht : ∀ r ∈ t, k ≠ keyFor r.id := fun r hr => h r (by simp [hr])
    cases hs : (syncInspection (net a)).success
    · simp only [syncAllLoop, hs]
      simp only [Bool.false_eq_true, if_false]
      exact ih s ht
    · simp only [syncAllLoop, hs, if_true]
      rw [ih _ ht, removeInspection, idbGet_del_ne s ha]

/-- The loop never creates entries: an absent key stays absent. -/
theorem syncAllLoop_get_none (net : OfflineInspection → FetchOutcome)
    (l : List OfflineInspection) (s : Store) (k : String)
    (h : idbGet s k = none) :
    idbGet (syncAllLoop net l s).store k = none := by
  induction l generalizing s with
  | nil => exact h
  | cons a t ih =>
    cases hs : (syncInspection (net a)).success
    · simp only [syncAllLoop, hs]
      simp only [Bool.false_eq_true, if_false]
      exact ih s h
    · simp only [syncAllLoop, hs, if_true]
      apply ih
      rw [removeInspection]
      by_cases hk : k = keyFor a.id
      · rw [hk]
        exact idbGet_del_self ..
      · rw [idbGet_del_ne s hk]
        exact h

/-- Per-record isolation of the loop: over a list of records with distinct
ids, each present in the store under its key, a successful record ends up
deleted and a failed record ends up still stored, independently of the
other records. -/
theorem syncAllLoop_isolation (net : OfflineInspection → FetchOutcome) :
    ∀ (l : List OfflineInspection) (s : Store),
      (l.map (fun r => r.id)).Nodup →
      (∀ r ∈ l, idbGet s (keyFor r.id) = some r) →
      ∀ r ∈ l,
        ((syncInspection (net r)).success = true →
          idbGet (syncAllLoop net l s).store (keyFor r.id) = none) ∧
        ((syncInspection (net r)).success = false →
          idbGet (syncAllLoop net l s).store (keyFor r.id) = some r) := by
  intro l
  induction l with
  | nil => intro s _ _ r hr; cases hr
  | cons a t ih =>
    intro s hnd hpres r hr
    have hnd2 : (∀ x ∈ t, ¬ x.id = a.id) ∧ (t.map (fun r => r.id)).Nodup := by
      simpa using hnd
    cases hs : (syncInspection (net a)).success
    · -- the head record fails; the store is passed on unchanged
      have hstore : (syncAllLoop net (a :: t) s).store
          = (syncAllLoop net t s).store := by
        simp [syncAllLoop, hs]
      rcases List.mem_cons.mp hr with hra | hrt
      · subst hra
        refine ⟨fun htr => ?_, fun _ => ?_⟩
        · rw [hs] at htr
          simp at htr
        · rw [hstore, syncAllLoop_get_stable]
          · exact hpres r (by simp)
          · intro q hq hEq
            exact hnd2.1 q hq (keyFor_inj hEq).symm
      · rw [hstore] at *
        exact ih s hnd2.2
          (fun q hq => hpres q (List.mem_cons_of_mem _ hq)) r hrt
    · -- the head record succeeds; it is removed before the rest runs
      have hstore : (syncAllLoop net (a :: t) s).store
          = (syncAllLoop net t (removeInspection s a.id)).store := by
        simp [syncAllLoop, hs]
      have hpres2 : ∀ q ∈ t,
          idbGet (removeInspection s a.id) (keyFor q.id) = some q := by
        intro q hq
        have hne : keyFor q.id ≠ keyFor a.id :=
          fun hEq => hnd2.1 q hq (keyFor_inj hEq)
        rw [removeInspection, idbGet_del_ne s hne]
        exact hpres q (List.mem_cons_of_mem _ hq)
      rcases List.mem_cons.mp hr with hra | hrt
      · subst hra
        refine ⟨fun _ => ?_, fun hf => ?_⟩
        · rw [hstore]
          apply syncAllLoop_get_none
          rw [removeInspection]
          exact idbGet_del_self ..
        · rw [hs] at hf
          simp at hf
      · rw [hstore] at *
        exact ih (removeInspection s a.id) hnd2.2 hpres2 r hrt

/-- Listing is sound: a listed record is stored under the key derived
from its id, for any well-formed store. -/
theorem getAll_mem_get {s : Store} {r : OfflineInspection}
    (hwf : StoreWF s) (hr : r ∈ getAllInspections s) :
    idbGet s (keyFor r.id) = some r := by
  simp only [getAllInspections] at hr
  have hr2 := (List.perm_insertionSort tsLe _).mem_iff.mp hr
  rcases List.mem_filterMap.mp hr2 with ⟨k, _, hget⟩
  have hmem := idbGet_some_mem hget
  have hk := hwf.2 (k, r) hmem
  simp only at hk
  rwa [hk] at hget

/-- Listed records of a well-formed store have pairwise distinct ids. -/
theorem getAll_ids_nodup {s : Store} (hwf : StoreWF s) :
    ((getAllInspections s).map (fun r => r.id)).Nodup := by
  have hkeys : (idbKeys s).Nodup :=
    (List.perm_insertionSort keyLe (s.map Prod.fst)).nodup_iff.mpr hwf.1
  have hfk : ((idbKeys s).filter (fun k => strStarts k offlineKeyHead)).Nodup :=
    hkeys.filter _
  have hbase :
      ((((idbKeys s).filter (fun k => strStarts k offlineKeyHead)).filterMap
        (fun k => idbGet s k)).map (fun r => r.id)).Nodup := by
    rw [List.map_filterMap]
    refine List.Nodup.filterMap ?_ hfk
    intro k k' i hk hk'
    have hks : ∃ q, idbGet s k = some q ∧ q.id = i := by
      cases hg : idbGet s k with
      | none => rw [hg] at hk; simp at hk
      | some q =>
        rw [hg] at hk
        simp at hk
        exact ⟨q, rfl, hk⟩
    have hks2 : ∃ q, idbGet s k' = some q ∧ q.id = i := by
      cases hg : idbGet s k' with
      | none => rw [hg] at hk'; simp at hk'
      | some q =>
        rw [hg] at hk'
        simp at hk'
        exact ⟨q, rfl, hk'⟩
    rcases hks with ⟨q, hq, hqi⟩
    rcases hks2 with ⟨q2, hq2, hq2i⟩
    have h1 := hwf.2 _ (idbGet_some_mem hq)
    have h2 := hwf.2 _ (idbGet_some_mem hq2)
    simp only at h1 h2
    rw [h1, h2, hqi, hq2i]
  have hperm :=
    (List.perm_insertionSort tsLe
      (((idbKeys s).filter (fun k => strStarts k offlineKeyHead)).filterMap
        (fun k => idbGet s k))).map (fun r => r.id)
  simp only [getAllInspections]
  exact hperm.nodup_iff.mpr hbase

/-- Listing returns records sorted by timestamp ascending. -/
theorem getAll_sorted (s : Store) :
    List.Sorted tsLe (getAllInspections s) := by
  simp only [getAllInspections]
  exact List.sorted_insertionSort tsLe _

/-- A failed per-record sync always carries an error message. -/
theorem syncInspection_fail_error (o : FetchOutcome)
    (h : (syncInspection o).success = false) :
    (syncInspection o).error.isSome = true := by
  cases o with
  | netError msg => rfl
  | resp status statusText body =>
    cases hok : respOk status
    · simp [syncInspection, hok]
    · cases body with
      | failed msg => simp [syncInspection, hok]
      | parsed j => simp [syncInspection, hok] at h

/-- The recorded outcome keeps the id of its record. -/
theorem outcomeOf_id (net : OfflineInspection → FetchOutcome)
    (r : OfflineInspection) : (outcomeOf net r).id = r.id := by
  unfold outcomeOf
  cases hs : (syncInspection (net r)).success <;> simp [hs]

/-- An upsert makes the written value readable under its key. -/
theorem idbGet_set (s : Store) (k : String) (v : OfflineInspection) :
    idbGet (idbSet s k v) k = some v := by
  induction s with
  | nil => simp [idbSet, idbGet]
  | cons p t ih =>
    by_cases hp : p.1 = k
    · have hany : ((p :: t).any (fun q => q.1 = k)) = true := by
        simp [List.any_cons, hp]
      simp only [idbSet, hany, if_true, List.map_cons, if_pos hp]
      simp [idbGet, List.find?_cons_of_pos]
    · have hstep : idbSet (p :: t) k v = p :: idbSet t k v := by
        by_cases ht : t.any (fun q => q.1 = k)
        · simp [idbSet, List.any_cons, hp, ht]
        · simp [idbSet, List.any_cons, hp, ht]
      rw [hstep]
      unfold idbGet
      rw [List.find?_cons_of_neg _ (by simp [hp])]
      exact ih

/-- The two counters of a cycle total the number of records given to the
loop. -/
theorem syncAllLoop_count_sum (net : OfflineInspection → FetchOutcome)
    (l : List OfflineInspection) (s : Store) :
    (syncAllLoop net l s).synced + (syncAllLoop net l s).failed = l.length := by
  induction l generalizing s with
  | nil => rfl
  | cons a t ih =>
    cases hs : (syncInspection (net a)).success
    · simp only [syncAllLoop, hs, Bool.false_eq_true, if_false, List.length_cons]
      have := ih s
      omega
    · simp only [syncAllLoop, hs, if_true, List.length_cons]
      have := ih (removeInspection s a.id)
      omega

/-! ## Claim theorems -/

/-- C5 counterexample: saveInspection on an id already present in the
store does not fail and does overwrite. Before the save, id a maps to
recScA; saving recScA2 (same id, different payload) completes normally,
returning a store in which id a maps to recScA2, so the stored record
associated with the id changed and no DuplicateKeyError exists anywhere
in the operation. -/
theorem save_duplicate_overwrites_cex :
    idbGet storeA (keyFor "a") = some recScA ∧
    saveInspection storeA recScA2 = [(keyFor "a", recScA2)] ∧
    idbGet (saveInspection storeA recScA2) (keyFor "a") = some recScA2 ∧
    recScA2 ≠ recScA := by
  refine ⟨by decide, by decide, by decide, by decide⟩

/-- C5 (amended): saveInspection is an unconditional upsert: for every
store and record, after the save the key derived from the record id maps
to exactly the saved record, silently replacing any previously stored
record with that id; the operation cannot fail. -/
theorem saveInspection_upsert (s : Store) (r : OfflineInspection) :
    idbGet (saveInspection s r) (keyFor r.id) = some r := by
  unfold saveInspection
  exact idbGet_set s (keyFor r.id) r

/-- C6: the connectivity oracle returns false without consulting the
probe when the platform flag is down; with the flag up it returns
response.ok of the probe (true exactly for a 2xx probe response) and
false when the probe rejects. -/
theorem isOnline_two_step :
    (∀ probe, isOnline false probe = false) ∧
    (∀ msg, isOnline true (.netError msg) = false) ∧
    (∀ status statusText body,
      isOnline true (.resp status statusText body) = respOk status) :=
  ⟨fun _ => rfl, fun _ => rfl, fun _ _ _ => rfl⟩

/-- C7: when listing the pending records yields the empty sequence, the
sync cycle returns zero counters, an empty outcomes array, an unchanged
store, and an empty POST trace (no network call is made). -/
theorem syncAll_empty_cycle (net : OfflineInspection → FetchOutcome)
    (s : Store) (h : getAllInspections s = []) :
    syncAllInspections net s = ⟨s, 0, 0, [], []⟩ := by
  unfold syncAllInspections
  rw [h]
  rfl

/-- Witness for C7 at the empty store. -/
theorem syncAll_empty_cycle_witness :
    getAllInspections [] = [] ∧
    syncAllInspections okNet [] = ⟨[], 0, 0, [], []⟩ :=
  ⟨rfl, syncAll_empty_cycle okNet [] rfl⟩

/-- C8: removeInspection is idempotent (a second removal of the same id
changes nothing) and removing an id whose key is absent is a no-op; the
operation is total, so it never throws. -/
theorem removeInspection_idempotent (s : Store) (id : String) :
    removeInspection (removeInspection s id) id = removeInspection s id ∧
    (idbGet s (keyFor id) = none → removeInspection s id = s) := by
  constructor
  · unfold removeInspection idbDel
    apply List.filter_eq_self.mpr
    intro p hp
    exact (List.mem_filter.mp hp).2
  · intro h
    have hfind : s.find? (fun q => q.1 = keyFor id) = none := by
      unfold idbGet at h
      cases hf : s.find? (fun q => q.1 = keyFor id) with
      | none => rfl
      | some q => rw [hf] at h; simp at h
    unfold removeInspection idbDel
    apply List.filter_eq_self.mpr
    intro p hp
    have := List.find?_eq_none.mp hfind p hp
    simpa using this

/-- Witness for C8: removing a never-stored id from a nonempty store is
the identity. -/
theorem removeInspection_idempotent_witness :
    idbGet storeA (keyFor "zzz") = none ∧
    removeInspection storeA "zzz" = storeA :=
  ⟨by decide, (removeInspection_idempotent storeA "zzz").2 (by decide)⟩

/-- C3: after the activate handler runs, every surviving cache generation
is named CACHE_NAME, and opening any differently named generation finds
nothing, so no entry of any other version remains retrievable. -/
theorem activate_generation_exclusive (cs : SWCacheStorage) (nm : String)
    (h : nm ≠ CACHE_NAME) :
    (∀ p ∈ activateHandler cs, p.1 = CACHE_NAME) ∧
    (activateHandler cs).find? (fun p => p.1 = nm) = none := by
  constructor
  · intro p hp
    simpa using (List.mem_filter.mp hp).2
  · rw [List.find?_eq_none]
    intro p hp
    have hcn : p.1 = CACHE_NAME := by simpa using (List.mem_filter.mp hp).2
    simp only [hcn, decide_eq_true_eq]
    exact fun hh => h hh.symm

/-- Witness for C3: activating over a storage still holding the v4
generation leaves only the current generation, and the v4 generation is
gone. -/
theorem activate_generation_exclusive_witness :
    "tyokalu-app-v4" ≠ CACHE_NAME ∧
    ((∀ p ∈ activateHandler cexCaches, p.1 = CACHE_NAME) ∧
      (activateHandler cexCaches).find? (fun p => p.1 = "tyokalu-app-v4")
        = none) :=
  ⟨by decide,
   activate_generation_exclusive cexCaches "tyokalu-app-v4" (by decide)⟩

/-- C4: for a same-origin GET whose path matches the never-cache
classification, the handler responds with exactly the network response
whenever the network succeeds, for every cache storage state (so a stored
entry is never consulted while the network succeeds), and consults the
cache only when the network attempt fails. -/
theorem neverCache_network_first (so : String) (cs : SWCacheStorage)
    (req : SWRequest) (r : SWResponse)
    (hm : req.method = "GET") (ho : strStarts req.url so = true)
    (hn : neverCacheTest req.pathname = true) :
    handleFetch so cs req (.success r) = (cs, .respond (some r)) ∧
    handleFetch so cs req .failure
      = (cs, .respond (cachesMatch cs req.pathname)) := by
  constructor <;> simp [handleFetch, hm, ho, hn]

/-- Witness for C4: the hashed-script request is answered with the fresh
network body even though a stale entry for the same path sits in the
active cache. -/
theorem neverCache_network_first_witness :
    (jsReq.method = "GET" ∧ strStarts jsReq.url appOrigin = true ∧
      neverCacheTest jsReq.pathname = true ∧
      cachesMatch cexCaches jsReq.pathname = some staleJs) ∧
    (handleFetch appOrigin cexCaches jsReq (.success freshJs)
        = (cexCaches, .respond (some freshJs)) ∧
      handleFetch appOrigin cexCaches jsReq .failure
        = (cexCaches, .respond (cachesMatch cexCaches jsReq.pathname))) :=
  ⟨by decide,
   neverCache_network_first appOrigin cexCaches jsReq freshJs
     (by decide) (by decide) (by decide)⟩

/-- C9: for a same-origin GET outside the never-cache classification, a
cache hit is served as-is with the cache state untouched; on a miss the
network response is returned to the client, and the cache state changes
only by storing that response under the active generation, which happens
exactly when the response has status 200, type basic, and its path is in
the static manifest; in every other case the state is unchanged, so such
responses are never stored. -/
theorem cacheFirst_policy (so : String) (cs : SWCacheStorage)
    (req : SWRequest) (net : SWNetResult)
    (hm : req.method = "GET") (ho : strStarts req.url so = true)
    (hn : neverCacheTest req.pathname = false) :
    (∀ r, cachesMatch cs req.pathname = some r →
      handleFetch so cs req net = (cs, .respond (some r))) ∧
    (∀ resp, cachesMatch cs req.pathname = none → net = .success resp →
      (handleFetch so cs req net).2 = .respond (some resp) ∧
      (¬(resp.status = 200 ∧ resp.resType = "basic" ∧
          STATIC_CACHE_URLS.contains req.pathname = true) →
        (handleFetch so cs req net).1 = cs) ∧
      ((resp.status = 200 ∧ resp.resType = "basic" ∧
          STATIC_CACHE_URLS.contains req.pathname = true) →
        (handleFetch so cs req net).1
          = cachePut cs CACHE_NAME req.pathname resp)) := by
  constructor
  · intro r hr
    simp [handleFetch, hm, ho, hn, hr]
  · intro resp hmiss hnet
    subst hnet
    have hbase : handleFetch so cs req (.success resp)
        = (if resp.status ≠ 200 ∨ resp.resType ≠ "basic" then
            (cs, .respond (some resp))
          else if STATIC_CACHE_URLS.contains req.pathname then
            (cachePut cs CACHE_NAME req.pathname resp, .respond (some resp))
          else (cs, .respond (some resp))) := by
      simp [handleFetch, hm, ho, hn, hmiss]
    by_cases h200 : resp.status = 200
    · by_cases hbasic : resp.resType = "basic"
      · by_cases hman : STATIC_CACHE_URLS.contains req.pathname = true
        · rw [hbase, if_neg (by simp [h200, hbasic]), if_pos hman]
          exact ⟨rfl, fun hnc => absurd ⟨h200, hbasic, hman⟩ hnc, fun _ => rfl⟩
        · rw [hbase, if_neg (by simp [h200, hbasic]), if_neg hman]
          exact ⟨rfl, fun _ => rfl, fun hc => absurd hc.2.2 hman⟩
      · rw [hbase, if_pos (Or.inr hbasic)]
        exact ⟨rfl, fun _ => rfl, fun hc => absurd hc.2.1 hbasic⟩
    · rw [hbase, if_pos (Or.inl h200)]
      exact ⟨rfl, fun _ => rfl, fun hc => absurd hc.1 h200⟩

/-- Witness for C9: a shell request missing from the empty active cache
is fetched, returned, and stored, since it is in the manifest and the
response is a 200 basic response. -/
theorem cacheFirst_policy_witness :
    (htmlReq.method = "GET" ∧ strStarts htmlReq.url appOrigin = true ∧
      neverCacheTest htmlReq.pathname = false ∧
      cachesMatch emptyCaches htmlReq.pathname = none) ∧
    (handleFetch appOrigin emptyCaches htmlReq (.success htmlResp)).2
      = .respond (some htmlResp) ∧
    (handleFetch appOrigin emptyCaches htmlReq (.success htmlResp)).1
      = cachePut emptyCaches CACHE_NAME htmlReq.pathname htmlResp :=
  ⟨by decide,
   ((cacheFirst_policy appOrigin emptyCaches htmlReq (.success htmlResp)
      (by decide) (by decide) (by decide)).2 htmlResp (by decide) rfl).1,
   ((cacheFirst_policy appOrigin emptyCaches htmlReq (.success htmlResp)
      (by decide) (by decide) (by decide)).2 htmlResp (by decide) rfl).2.2
     (by decide)⟩

/-- C10: batch accounting totality: every record listed at the start of
the cycle contributes exactly one outcome carrying its id, the synced and
failed counters total the length of the outcomes array, which equals the
number of listed records, and a failed per-record sync is always a
returned value carrying an error message rather than a thrown exception
(syncInspection is total by construction). -/
theorem syncAll_accounting (net : OfflineInspection → FetchOutcome)
    (s : Store) :
    (syncAllInspections net s).synced + (syncAllInspections net s).failed
      = (syncAllInspections net s).results.length ∧
    (syncAllInspections net s).results.length
      = (getAllInspections s).length ∧
    (syncAllInspections net s).results.map (fun o => o.id)
      = (getAllInspections s).map (fun r => r.id) ∧
    (∀ o : FetchOutcome, (syncInspection o).success = false →
      (syncInspection o).error.isSome = true) := by
  refine ⟨?_, ?_, ?_, syncInspection_fail_error⟩
  · unfold syncAllInspections
    rw [syncAllLoop_count_sum, syncAllLoop_results, List.length_map]
  · unfold syncAllInspections
    rw [syncAllLoop_results, List.length_map]
  · unfold syncAllInspections
    rw [syncAllLoop_results, List.map_map]
    exact List.map_congr_left (fun r _ => outcomeOf_id net r)

/-- C1: partial-failure isolation of a sync cycle over any well-formed
store: a listed record whose POST fully succeeds (2xx with parseable
body) is absent from the final store and counted in synced; a listed
record whose POST fails (non-2xx, network error, or parse failure) is
still stored unchanged in the final store, contributes an outcome with
success false and an error message, and is counted in failed; the POST
trace covers the whole listed batch, so no failure aborts the remaining
records. -/
theorem syncAll_partial_failure_isolation
    (net : OfflineInspection → FetchOutcome) (s : Store) (hwf : StoreWF s) :
    (∀ r ∈ getAllInspections s,
      ((syncInspection (net r)).success = true →
        idbGet (syncAllInspections net s).store (keyFor r.id) = none) ∧
      ((syncInspection (net r)).success = false →
        idbGet (syncAllInspections net s).store (keyFor r.id) = some r ∧
        (⟨r.id, false, (syncInspection (net r)).error⟩ : SyncOutcome)
          ∈ (syncAllInspections net s).results ∧
        (syncInspection (net r)).error.isSome = true)) ∧
    (syncAllInspections net s).posted = getAllInspections s ∧
    (syncAllInspections net s).synced
      = (getAllInspections s).countP
          (fun r => (syncInspection (net r)).success) ∧
    (syncAllInspections net s).failed
      = (getAllInspections s).countP
          (fun r => !(syncInspection (net r)).success) := by
  have hiso := syncAllLoop_isolation net (getAllInspections s) s
    (getAll_ids_nodup hwf) (fun r hr => getAll_mem_get hwf hr)
  refine ⟨?_, syncAllLoop_posted net (getAllInspections s) s,
    syncAllLoop_synced net (getAllInspections s) s,
    syncAllLoop_failed net (getAllInspections s) s⟩
  intro r hr
  refine ⟨(hiso r hr).1,
    fun hf => ⟨(hiso r hr).2 hf, ?_, syncInspection_fail_error _ hf⟩⟩
  show _ ∈ (syncAllInspections net s).results
  unfold syncAllInspections
  rw [syncAllLoop_results]
  have hout : outcomeOf net r
      = ⟨r.id, false, (syncInspection (net r)).error⟩ := by
    unfold outcomeOf
    rw [hf]
    simp
  rw [← hout]
  exact List.mem_map_of_mem _ hr

/-- Witness for C1: in the two-record scenario where the POST of record a
fails with HTTP 500 and the POST of record b succeeds, the cycle keeps a
in the store, removes b, attempts both records, and reports one synced
and one failed. -/
theorem syncAll_partial_failure_isolation_witness :
    StoreWF storeAB ∧
    (syncAllInspections netAB storeAB).posted = getAllInspections storeAB ∧
    (syncAllInspections netAB storeAB).synced = 1 ∧
    (syncAllInspections netAB storeAB).failed = 1 ∧
    idbGet (syncAllInspections netAB storeAB).store (keyFor "a")
      = some recScA ∧
    idbGet (syncAllInspections netAB storeAB).store (keyFor "b") = none :=
  ⟨by decide,
   (syncAll_partial_failure_isolation netAB storeAB (by decide)).2.1,
   by decide, by decide, by decide, by decide⟩

/-- C2 counterexample: the background-task executor does not attempt
records in ascending createdAt order. In a store of two records with
distinct timestamps whose IndexedDB key order reverses their timestamp
order, handleInspectionSync POSTs the timestamp-2000 record before the
timestamp-1000 record. -/
theorem bg_sync_not_fifo_cex :
    (cexStore.map (fun p => p.2.timestamp)).Nodup ∧
    (handleInspectionSync okNet cexStore).posted.map (fun r => r.timestamp)
      = [2000, 1000] ∧
    ¬ ((2000 : Int) ≤ 1000) := by
  refine ⟨by decide, by decide, by decide⟩

/-- C2 (amended): syncAllInspections attempts delivery strictly
sequentially over the listed snapshot, which for records with pairwise
distinct timestamps is strictly ascending in createdAt, and the outcomes
array lists the same records in the same order; the background-task
executor handleInspectionSync instead drains the queue in IndexedDB key
order, which need not coincide with createdAt order. -/
theorem syncAll_fifo_order (net : OfflineInspection → FetchOutcome)
    (s : Store)
    (hd : ((getAllInspections s).map (fun r => r.timestamp)).Nodup) :
    (syncAllInspections net s).posted = getAllInspections s ∧
    List.Sorted (fun a b : Int => a < b)
      ((syncAllInspections net s).posted.map (fun r => r.timestamp)) ∧
    (syncAllInspections net s).results.map (fun o => o.id)
      = (syncAllInspections net s).posted.map (fun r => r.id) := by
  have hpost : (syncAllInspections net s).posted = getAllInspections s :=
    syncAllLoop_posted net (getAllInspections s) s
  refine ⟨hpost, ?_, ?_⟩
  · rw [hpost]
    have hle : List.Pairwise (fun a b : Int => a ≤ b)
        ((getAllInspections s).map (fun r => r.timestamp)) :=
      List.Pairwise.map _ (fun _ _ h => h) (getAll_sorted s)
    have hne : List.Pairwise (fun a b : Int => a ≠ b)
        ((getAllInspections s).map (fun r => r.timestamp)) := hd
    exact (hle.and hne).imp (fun h => lt_of_le_of_ne h.1 h.2)
  · rw [hpost]
    unfold syncAllInspections
    rw [syncAllLoop_results, List.map_map]
    exact List.map_congr_left (fun r _ => outcomeOf_id net r)

/-- Witness for C2 at the two-record store with distinct timestamps. -/
theorem syncAll_fifo_order_witness :
    ((getAllInspections cexStore).map (fun r => r.timestamp)).Nodup ∧
    ((syncAllInspections okNet cexStore).posted = getAllInspections cexStore ∧
      List.Sorted (fun a b : Int => a < b)
        ((syncAllInspections okNet cexStore).posted.map
          (fun r => r.timestamp)) ∧
      (syncAllInspections okNet cexStore).results.map (fun o => o.id)
        = (syncAllInspections okNet cexStore).posted.map (fun r => r.id)) :=
  ⟨by decide, syncAll_fifo_order okNet cexStore (by decide)⟩
